import Mathlib

/-
Verification of the tofu-docs source-text scanner (lib/common/helper.py and
lib/models/input.py).  Text is modelled as `List Char`; Python regular
expressions used by the code are fixed literal patterns and are embedded as
the corresponding deterministic matchers (the patterns anchor with `^` in
MULTILINE mode, so a match can only start at a line start; the greedy
runs ` *` / `\s*` followed by a non-whitespace literal match exactly the
maximal whitespace run, since backtracking to a shorter run would require the
literal to start with whitespace).  Python exceptions are modelled as error
values of an `Except`.
-/

/-- Python `\s` whitespace class for the ASCII texts handled here. -/
def isPyWs (c : Char) : Bool :=
  c == ' ' || c == '\t' || c == '\n' || c == '\r' || c == '\x0b' || c == '\x0c'

/-- Python `\w` word-character class (ASCII range, as used by the HCL names). -/
def isWordChar (c : Char) : Bool :=
  c.isAlphanum || c == '_'

/-- Python negative-index list read: `l[i]` returns an element counted from the
end for `i < 0` and raises `IndexError` (here: `none`) when out of range. -/
def pyGet? {α : Type} (l : List α) (i : Int) : Option α :=
  if i < 0 then
    if (0 : Int) ≤ (l.length : Int) + i then l.get? ((l.length : Int) + i).toNat else none
  else l.get? i.toNat

/-- Python slice `l[i:]`: a negative start counts from the end, clamped at 0. -/
def pySliceFrom {α : Type} (l : List α) (i : Int) : List α :=
  if i < 0 then l.drop ((l.length : Int) + i).toNat else l.drop i.toNat

/-- Helper for `splitlines`: split a character list at every newline,
keeping empty pieces (this is the plain split; `splitlines` fixes the end). -/
def splitAll : List Char → List (List Char)
  | [] => [[]]
  | c :: cs =>
    if c = '\n' then [] :: splitAll cs
    else
      match splitAll cs with
      | [] => [[c]]
      | p :: ps => (c :: p) :: ps

/-- Python `str.splitlines()` for newline-separated text: no piece for a
trailing newline, and the empty string has no lines. -/
def splitlines (text : List Char) : List (List Char) :=
  if text.isEmpty then []
  else if text.getLast? = some '\n' then (splitAll text).dropLast
  else splitAll text

/-- `'\n'.join(lines)`. -/
def joinNL (ls : List (List Char)) : List Char :=
  (ls.intersperse ['\n']).flatten

/-- The accumulation loop of `find_blocks`: append lines until (inclusively)
one matches the end predicate; `none` when the end of input is reached first
(the Python `in_block` flag stays `True`). -/
def takeThrough (p : List Char → Bool) : List (List Char) → Option (List (List Char))
  | [] => none
  | l :: ls => if p l then some [l] else (takeThrough p ls).map (l :: ·)

/-- Sequencing of a fallible computation over a list, stopping at the first
error, exactly like the Python `for` loop that may `raise`. -/
def mapExcept {α β ε : Type} (f : α → Except ε β) : List α → Except ε (List β)
  | [] => .ok []
  | a :: as =>
    match f a with
    | .error e => .error e
    | .ok b =>
      match mapExcept f as with
      | .error e => .error e
      | .ok bs => .ok (b :: bs)

/-- Error values of `find_blocks` (the Python function raises `ValueError`
with distinct messages, plus a possible `IndexError` from `lines[idx]`). -/
inductive BlocksErr where
  | invalidLoc
  | indexOut
  | invalidStart
  | invalidEnd
  | noBlocks
deriving DecidableEq, Repr

/-- One iteration of the `find_blocks` loop body (helper.py lines 26-46):
`idx = loc - 1`, guard on the slice, re-check of the start pattern on the
anchor line, then accumulate until the end pattern matches. -/
def findBlocksOne (lines : List (List Char)) (startP endP : List Char → Bool)
    (loc : Int) : Except BlocksErr (List Char) :=
  if lines.isEmpty ∨ (pySliceFrom lines (loc - 1)).isEmpty then .error .invalidLoc
  else
    match pyGet? lines (loc - 1) with
    | none => .error .indexOut
    | some ln =>
      if startP ln then
        match takeThrough endP (pySliceFrom lines (loc - 1)) with
        | none => .error .invalidEnd
        | some bl => .ok (joinNL bl)
      else .error .invalidStart

/-- helper.py `find_blocks`: extract one block of lines per anchor `loc`,
from the anchor line to the first line matching the end pattern, inclusive.
The start and end regexes are embedded as line predicates. -/
def find_blocks (text : List Char) (locs : List Int)
    (startP endP : List Char → Bool) : Except BlocksErr (List (List Char)) :=
  match mapExcept (findBlocksOne (splitlines text) startP endP) locs with
  | .error e => .error e
  | .ok blocks => if blocks.isEmpty then .error .noBlocks else .ok blocks

/-- Line-start test used by `^`-anchored MULTILINE regex matching. -/
def isLineStart (text : List Char) (i : Nat) : Bool :=
  i == 0 || text.get? (i - 1) == some '\n'

/-- The shared skeleton of Python `re.finditer` for a `^`-anchored pattern:
scan left to right, try the matcher at every line start at or past the end of
the previous match, and advance past each match (at least one position). -/
def fiGo {β : Type} (m : List Char → Option β) (blen : β → Nat)
    (text : List Char) : Nat → Nat → List (Nat × β)
  | 0, _ => []
  | fuel + 1, i =>
    if i < text.length then
      if isLineStart text i then
        match m (text.drop i) with
        | some b => (i, b) :: fiGo m blen text fuel (i + max (blen b) 1)
        | none => fiGo m blen text fuel (i + 1)
      else fiGo m blen text fuel (i + 1)
    else []

/-- Matcher of helper.py's `rf'^ *{prop}\s*='` at a line-start suffix `s`:
returns `(leading spaces, total match length)`. -/
def mProp (prop s : List Char) : Option (Nat × Nat) :=
  let sp := (s.takeWhile (· == ' ')).length
  let r1 := s.drop sp
  if prop.isPrefixOf r1 then
    let r2 := r1.drop prop.length
    let w := (r2.takeWhile isPyWs).length
    match r2.get? w with
    | some '=' => some (sp, sp + prop.length + w + 1)
    | _ => none
  else none

/-- All matches of `rf'^ *{prop}\s*='` in `text` (MULTILINE), as
`(start offset, leading spaces, match length)`, in textual order. -/
def propMatches (text prop : List Char) : List (Nat × Nat × Nat) :=
  fiGo (mProp prop) (fun b => b.2) text (text.length + 1) 0

/-- Stable insertion of `a` into a list sorted ascending by `key`: `a` goes
before the first element with a strictly greater-or-equal position, i.e.
after every element with a strictly smaller key and before equal keys coming
from later in the original list. -/
def insLt {α : Type} (key : α → Nat) (a : α) : List α → List α
  | [] => [a]
  | b :: bs => if key b < key a then b :: insLt key a bs else a :: b :: bs

/-- Stable sort by `key` ascending (models Python `list.sort(key=...)`,
which is stable). -/
def ssort {α : Type} (key : α → Nat) : List α → List α
  | [] => []
  | a :: as => insLt key a (ssort key as)

/-- First element of the list attaining the minimal key (what `matches[0]`
is after a stable ascending sort). -/
def fm {α : Type} (key : α → Nat) : List α → Option α
  | [] => none
  | a :: as =>
    some (match fm key as with
      | none => a
      | some m => if key m < key a then m else a)

/-- The selection `if len(matches) > 1: matches.sort(key=...)` followed by
`matches[0]` (used both in helper.py and in input.py). -/
def selectByKey {α : Type} (key : α → Nat) (ms : List α) : Option α :=
  if ms.length > 1 then (ssort key ms).head? else ms.head?

/-- Failure modes of `find_prop_in_block`: the explicit
`ValueError('Unmatched brackets...')`, the `IndexError` raised by
`matches[0]` / `bracket_stack[-1]`, and fuel exhaustion of the embedding
(never reached: the scan index strictly increases and the fuel passed in
exceeds the text length). -/
inductive ScanErr where
  | indexErr
  | unmatchedBracket
  | fuelOut
deriving DecidableEq, Repr

/-- The transient scanner state of helper.py lines 74-80. -/
structure ScanSt where
  stack : List Char
  lineEnded : Bool
  inQuoted : Bool
  inHeredoc : Bool
  isEscaped : Bool
  heredocName : Option (List Char)
  ret : List Char
deriving DecidableEq, Repr

/-- Result of one iteration of the scan loop: continue at a new index, break
out of the loop, or raise. -/
inductive StepRes where
  | cont (idx : Nat) (st : ScanSt)
  | halt (st : ScanSt)
  | fail (e : ScanErr)
deriving DecidableEq, Repr

/-- `is_escaped = c == '\\' and not is_escaped` (helper.py line 128). -/
def escUpd (c : Char) (e : Bool) : Bool := (c == '\\') && !e

/-- `RE_HEREDOC = re.compile(r'<<-?(\w+)')` matched at the start of `s`:
returns the match length and the captured name. -/
def heredocMatch (s : List Char) : Option (Nat × List Char) :=
  match s with
  | '<' :: '<' :: rest =>
    match rest with
    | '-' :: r2 =>
      let nm := r2.takeWhile isWordChar
      if nm.isEmpty then none else some (3 + nm.length, nm)
    | _ =>
      let nm := rest.takeWhile isWordChar
      if nm.isEmpty then none else some (2 + nm.length, nm)
  | _ => none

def isOpener (c : Char) : Bool := c == '\x7b' || c == '[' || c == '('
def isCloser (c : Char) : Bool := c == '\x7d' || c == ']' || c == ')'

/-- The `BRACKETS` dictionary of helper.py. -/
def BRACKETS (c : Char) : Option Char :=
  if c = '\x7d' then some '\x7b'
  else if c = ']' then some '['
  else if c = ')' then some '('
  else none

/-- The heredoc-termination test of helper.py lines 101-107: in a heredoc,
not in a quote, with a truthy heredoc name, `text` continues with the name
followed by a newline, and the previous character is a newline (Python reads
`text[idx - 1]`, which wraps to the last character at `idx = 0`; that index
is unreachable because a heredoc can only have been opened at `idx ≥ 1`). -/
def hdTermOk (text : List Char) (idx : Nat) (st : ScanSt) : Bool :=
  st.inHeredoc && !st.inQuoted &&
    (match st.heredocName with
     | none => false
     | some nm =>
       !nm.isEmpty && (nm ++ ['\n']).isPrefixOf (text.drop idx) &&
         pyGet? text ((idx : Int) - 1) == some '\n')

/-- The index adjustment of the heredoc-termination branch (helper.py lines
109-111): `idx += len(heredoc_name); if text[idx] == '\n': idx += 1`. -/
def hdSkip (text : List Char) (idx : Nat) (nm : List Char) : Nat :=
  if text.get? (idx + nm.length) = some '\n' then idx + nm.length + 1 else idx + nm.length

/-- One iteration of the `while idx < len(text)` loop of
`find_prop_in_block` (helper.py lines 85-128), transcribed branch by branch
in the Python `elif` order.  `ret += c` (here `st.ret ++ [c]` in every
outcome) happens first; the heredoc-open branch then appends the
*additional* text `'<<-' + name` and jumps the index past the match, and
every non-breaking branch ends with `idx += 1` and the escape update on the
character read at the top of the iteration. -/
def scanStep (text : List Char) (idx : Nat) (st : ScanSt) : StepRes :=
  match text.get? idx with
  | none => .halt st
  | some c =>
    if c = '"' ∧ st.inHeredoc = false ∧ st.isEscaped = false then
      .cont (idx + 1) { st with ret := st.ret ++ [c], inQuoted := !st.inQuoted,
                                isEscaped := escUpd c st.isEscaped }
    else
      match (if c = '<' ∧ st.inQuoted = false ∧ st.inHeredoc = false
             then heredocMatch (text.drop idx) else none) with
      | some (mlen, nm) =>
        .cont (idx + mlen + 1)
          { st with ret := st.ret ++ [c] ++ '<' :: '<' :: '-' :: nm,
                    inHeredoc := true, heredocName := some nm,
                    isEscaped := escUpd c st.isEscaped }
      | none =>
        if hdTermOk text idx st = true then
          if st.lineEnded = true then
            .halt { st with ret := st.ret ++ [c], inHeredoc := false }
          else
            .cont (hdSkip text idx (st.heredocName.getD []) + 1)
              { st with ret := st.ret ++ [c], inHeredoc := false,
                        isEscaped := escUpd c st.isEscaped }
        else if isOpener c = true ∧ st.inQuoted = false ∧ st.inHeredoc = false then
          .cont (idx + 1) { st with ret := st.ret ++ [c], stack := c :: st.stack,
                                    isEscaped := escUpd c st.isEscaped }
        else if isCloser c = true ∧ st.inQuoted = false then
          match st.stack with
          | [] => .fail .indexErr
          | top :: rest =>
            if BRACKETS c = some top then
              if st.lineEnded = true ∧ rest = [] then
                .halt { st with ret := st.ret ++ [c], stack := rest }
              else
                .cont (idx + 1) { st with ret := st.ret ++ [c], stack := rest,
                                          isEscaped := escUpd c st.isEscaped }
            else .fail .unmatchedBracket
        else if c = '\n' then
          if (st.inQuoted || st.inHeredoc) = false ∧ st.stack = [] then
            .halt { st with ret := st.ret ++ [c], lineEnded := true }
          else
            .cont (idx + 1) { st with ret := st.ret ++ [c], lineEnded := true,
                                      isEscaped := escUpd c st.isEscaped }
        else .cont (idx + 1) { st with ret := st.ret ++ [c], isEscaped := escUpd c st.isEscaped }

/-- The `if bracket_stack: raise` check performed after the loop exits
(helper.py lines 129-131), on a break as well as at end of input. -/
def scanFinish (st : ScanSt) : Except ScanErr (List Char) :=
  if st.stack = [] then .ok st.ret else .error .unmatchedBracket

/-- The scan loop driver.  `fuel` only bounds the recursion; the index
strictly increases at every step, so any fuel above `text.length` is enough
and `.fuelOut` is never produced by the uses below. -/
def scanGo (text : List Char) (fuel idx : Nat) (st : ScanSt) : Except ScanErr (List Char) :=
  if idx < text.length then
    match fuel with
    | 0 => .error .fuelOut
    | fuel + 1 =>
      match scanStep text idx st with
      | .cont idx2 st2 => scanGo text fuel idx2 st2
      | .halt st2 => scanFinish st2
      | .fail e => .error e
  else scanFinish st

/-- The initial scanner state (helper.py lines 74-80). -/
def initScanSt : ScanSt :=
  { stack := [], lineEnded := false, inQuoted := false, inHeredoc := false,
    isEscaped := false, heredocName := none, ret := [] }

/-- `str.strip()`. -/
def pyStrip (l : List Char) : List Char :=
  ((l.dropWhile isPyWs).reverse.dropWhile isPyWs).reverse

/-- `re.sub(rf'^ *{prop}\s*=\s*', '', ret, count=1)` (no MULTILINE: the
anchor is the start of the string; if the pattern does not match, `ret` is
returned unchanged). -/
def stripPropAssign (prop ret : List Char) : List Char :=
  let sp := (ret.takeWhile (· == ' ')).length
  let r1 := ret.drop sp
  if prop.isPrefixOf r1 then
    let r2 := r1.drop prop.length
    let w := (r2.takeWhile isPyWs).length
    match r2.get? w with
    | some '=' => (r2.drop (w + 1)).dropWhile isPyWs
    | _ => ret
  else ret

/-- helper.py `find_prop_in_block`: find the line-start occurrences of
`prop\s*=`, pick the least-indented one (`matches[0]` raising `IndexError`
when there is none), run the character scan from its start offset, then
strip the `prop =` prefix and surrounding whitespace. -/
def find_prop_in_block (text prop : List Char) : Except ScanErr (List Char) :=
  match selectByKey (fun x => x.2.1) (propMatches text prop) with
  | none => .error .indexErr
  | some m =>
    match scanGo text (text.length + 1) m.1 initScanSt with
    | .ok ret => .ok (pyStrip (stripPropAssign prop ret))
    | .error e => .error e

/-- Number of newline characters strictly before offset `o`
(input.py line 132 computes `file_content.count('\n', 0, pattern.start())`). -/
def nlBefore (text : List Char) (o : Nat) : Nat :=
  (text.take o).count '\n'

/-- The anchor-locator portion of `SingleElementRootModel.find` (input.py
lines 128-134): all match offsets of the `^`-anchored start pattern, each
converted to a 1-based line number.  The pattern is embedded as an abstract
matcher `m` returning the match length at a line-start suffix. -/
def locateAll (m : List Char → Option Nat) (text : List Char) : List Nat :=
  (fiGo m id text (text.length + 1) 0).map (fun x => nlBefore text x.1 + 1)

/-- Error values of `SingleElementRootModel.find`. -/
inductive FindErr where
  | notFound
  | blockErr (e : BlocksErr)
deriving DecidableEq, Repr

/-- input.py `SingleElementRootModel.find`: locate the anchors, fail with
`NotFound` when there are none, extract the blocks, and pair each anchor
line number with its block. -/
def singleElementFind (m : List Char → Option Nat) (startP endP : List Char → Bool)
    (text : List Char) : Except FindErr (List (Nat × List Char)) :=
  let locs := locateAll m text
  if locs.isEmpty then .error .notFound
  else
    match find_blocks text (locs.map (fun n => (n : Int))) startP endP with
    | .error e => .error (.blockErr e)
    | .ok blocks => .ok (locs.zip blocks)

/-- Matcher of input.py's `rf'^\s*{name}\s*='` at a line-start suffix:
returns `(leading whitespace run, total match length)`; the leading run is
what `indent(m.group(0))` computes. -/
def mLocal (name s : List Char) : Option (Nat × Nat) :=
  let w1 := (s.takeWhile isPyWs).length
  let r1 := s.drop w1
  if name.isPrefixOf r1 then
    let r2 := r1.drop name.length
    let w2 := (r2.takeWhile isPyWs).length
    match r2.get? w2 with
    | some '=' => some (w1, w1 + name.length + w2 + 1)
    | _ => none
  else none

/-- All matches of `rf'^\s*{name}\s*='` in a block, in textual order. -/
def localPropMatches (block name : List Char) : List (Nat × Nat × Nat) :=
  fiGo (mLocal name) (fun b => b.2) block (block.length + 1) 0

/-- The candidate-collection loop of `HclLocal.find` (input.py lines
176-189): for each `(loc, block)` pair, find the inner matches of the local
name, skip the block when there are none, select the least-indented match
(first in order on ties), and record the adjusted line number, the block and
the indentation of the selected match. -/
def buildLocMatches (name : List Char) (bms : List (Nat × List Char)) :
    List (Nat × List Char × Nat) :=
  bms.filterMap (fun lb =>
    match selectByKey (fun x => x.2.1) (localPropMatches lb.2 name) with
    | none => none
    | some m => some (lb.1 + nlBefore lb.2 m.1, lb.2, m.2.1))

/-- Error value of `HclLocal.find`. -/
inductive LocalErr where
  | notFound
deriving DecidableEq, Repr

/-- input.py `HclLocal.find` after the call to `super().find` (lines
176-195): build the candidate list, fail when empty, stably sort by the
indentation of the inner match and return the first candidate. -/
def hclLocalFind (name : List Char) (bms : List (Nat × List Char)) :
    Except LocalErr (List (Nat × List Char)) :=
  match (ssort (fun x => x.2.2) (buildLocMatches name bms)).head? with
  | none => .error .notFound
  | some sel => .ok [(sel.1, sel.2.1)]

/-- State of the spec-level bracket-balance checker. -/
structure BalSt where
  stack : List Char
  inQuoted : Bool
  inHeredoc : Bool
  heredocName : List Char
  isEscaped : Bool
deriving DecidableEq, Repr

/-- Modelled from the spec: the balance notion of the §3 invariant, "a caller
must never receive a block whose brackets (outside of quotes/heredocs) are
unbalanced", with quotes, escapes and heredocs tracked by the lexical rules
of §4.3 (this predicate states the claimed property; it embeds no code). -/
def balGo (text : List Char) : Nat → Nat → BalSt → Bool
  | 0, _, st => st.stack.isEmpty
  | fuel + 1, idx, st =>
    match text.get? idx with
    | none => st.stack.isEmpty
    | some c =>
      if c = '"' ∧ st.inHeredoc = false ∧ st.isEscaped = false then
        balGo text fuel (idx + 1) { st with inQuoted := !st.inQuoted, isEscaped := false }
      else
        match (if c = '<' ∧ st.inQuoted = false ∧ st.inHeredoc = false
               then heredocMatch (text.drop idx) else none) with
        | some (mlen, nm) =>
          balGo text fuel (idx + mlen) { st with inHeredoc := true, heredocName := nm, isEscaped := false }
        | none =>
          if st.inHeredoc = true ∧ st.inQuoted = false ∧
              (st.heredocName ++ ['\n']).isPrefixOf (text.drop idx) = true ∧
              (idx = 0 ∨ text.get? (idx - 1) = some '\n') then
            balGo text fuel (idx + st.heredocName.length + 1) { st with inHeredoc := false, heredocName := [] }
          else if isOpener c = true ∧ st.inQuoted = false ∧ st.inHeredoc = false then
            balGo text fuel (idx + 1) { st with stack := c :: st.stack, isEscaped := false }
          else if isCloser c = true ∧ st.inQuoted = false ∧ st.inHeredoc = false then
            match st.stack with
            | [] => false
            | top :: rest =>
              if BRACKETS c = some top then
                balGo text fuel (idx + 1) { st with stack := rest, isEscaped := false }
              else false
          else balGo text fuel (idx + 1) { st with isEscaped := escUpd c st.isEscaped }

/-- Modelled from the spec: a text is bracket-balanced outside quoted and
heredoc regions. -/
def specBalancedOutside (text : List Char) : Bool :=
  balGo text (text.length + 1) 0 { stack := [], inQuoted := false, inHeredoc := false,
                                   heredocName := [], isEscaped := false }

/-! ### Properties of the stable sort and the first-minimum selection -/

/-- Index of the first element attaining the minimal key. -/
def fmIdx {α : Type} (key : α → Nat) : List α → Nat
  | [] => 0
  | a :: as =>
    match fm key as with
    | none => 0
    | some m => if key m < key a then fmIdx key as + 1 else 0

theorem fm_eq_none_iff {α : Type} (key : α → Nat) (l : List α) :
    fm key l = none ↔ l = [] := by
  cases l <;> simp [fm]

theorem fm_mem {α : Type} (key : α → Nat) :
    ∀ (l : List α) (m : α), fm key l = some m → m ∈ l
  | a :: as, m, h => by
    rw [fm] at h
    cases hfm : fm key as with
    | none =>
      rw [hfm] at h
      simp only [Option.some.injEq] at h
      subst h
      exact List.mem_cons_self a as
    | some m0 =>
      rw [hfm] at h
      simp only [Option.some.injEq] at h
      by_cases hk : key m0 < key a
      · rw [if_pos hk] at h
        rw [← h]
        exact List.mem_cons_of_mem a (fm_mem key as m0 hfm)
      · rw [if_neg hk] at h
        subst h
        exact List.mem_cons_self a as

theorem fm_min {α : Type} (key : α → Nat) :
    ∀ (l : List α) (m : α), fm key l = some m → ∀ x ∈ l, key m ≤ key x
  | a :: as, m, h => by
    rw [fm] at h
    cases hfm : fm key as with
    | none =>
      rw [hfm] at h
      simp only [Option.some.injEq] at h
      subst h
      rw [fm_eq_none_iff] at hfm
      subst hfm
      intro x hx
      rw [List.mem_singleton] at hx
      subst hx
      exact le_refl _
    | some m0 =>
      rw [hfm] at h
      simp only [Option.some.injEq] at h
      intro x hx
      rcases List.mem_cons.mp hx with hx | hx
      · rw [hx]
        by_cases hk : key m0 < key a
        · rw [if_pos hk] at h; subst h; exact le_of_lt hk
        · rw [if_neg hk] at h; subst h; exact le_refl _
      · have hmin := fm_min key as m0 hfm x hx
        by_cases hk : key m0 < key a
        · rw [if_pos hk] at h; subst h; exact hmin
        · rw [if_neg hk] at h; subst h; omega

theorem fm_idx_get {α : Type} (key : α → Nat) :
    ∀ (l : List α) (m : α), fm key l = some m → l.get? (fmIdx key l) = some m
  | a :: as, m, h => by
    rw [fm] at h
    cases hfm : fm key as with
    | none =>
      rw [hfm] at h
      simp only [Option.some.injEq] at h
      subst h
      simp only [fmIdx, hfm]
      rfl
    | some m0 =>
      rw [hfm] at h
      simp only [Option.some.injEq] at h
      by_cases hk : key m0 < key a
      · rw [if_pos hk] at h
        simp only [fmIdx, hfm, if_pos hk]
        rw [← h]
        exact fm_idx_get key as m0 hfm
      · rw [if_neg hk] at h
        subst h
        simp only [fmIdx, hfm, if_neg hk]
        rfl

theorem fm_idx_first {α : Type} (key : α → Nat) :
    ∀ (l : List α) (m : α), fm key l = some m →
      ∀ j, j < fmIdx key l → ∀ y, l.get? j = some y → key m < key y
  | a :: as, m, h => by
    rw [fm] at h
    cases hfm : fm key as with
    | none =>
      rw [hfm] at h
      simp only [fmIdx, hfm]
      intro j hj
      simp at hj
    | some m0 =>
      rw [hfm] at h
      simp only [Option.some.injEq] at h
      by_cases hk : key m0 < key a
      · rw [if_pos hk] at h
        simp only [fmIdx, hfm, if_pos hk]
        rw [← h]
        intro j hj y hy
        cases j with
        | zero =>
          simp only [List.get?] at hy
          injection hy with hy
          subst hy
          exact hk
        | succ j =>
          simp only [List.get?] at hy
          exact fm_idx_first key as m0 hfm j (by omega) y hy
      · rw [if_neg hk] at h
        subst h
        simp only [fmIdx, hfm, if_neg hk]
        intro j hj
        simp at hj

theorem insLt_head? {α : Type} (key : α → Nat) (a : α) (s : List α) :
    (insLt key a s).head? =
      some (match s.head? with
        | none => a
        | some b => if key b < key a then b else a) := by
  cases s with
  | nil => rfl
  | cons b bs =>
    rw [insLt]
    by_cases h : key b < key a
    · rw [if_pos h]; simp [h]
    · rw [if_neg h]; simp [h]

theorem ssort_head?_eq_fm {α : Type} (key : α → Nat) :
    ∀ (l : List α), (ssort key l).head? = fm key l
  | [] => rfl
  | a :: as => by
    rw [ssort, insLt_head?, ssort_head?_eq_fm key as, fm]

theorem selectByKey_eq_fm {α : Type} (key : α → Nat) (l : List α) :
    selectByKey key l = fm key l := by
  match l with
  | [] => rfl
  | [a] => rfl
  | a :: b :: bs =>
    rw [selectByKey, if_pos (by simp)]
    exact ssort_head?_eq_fm key _

theorem selectByKey_min {α : Type} (key : α → Nat) (l : List α) (m : α)
    (h : selectByKey key l = some m) : m ∈ l ∧ ∀ x ∈ l, key m ≤ key x := by
  rw [selectByKey_eq_fm] at h
  exact ⟨fm_mem key l m h, fm_min key l m h⟩

/-! ### Properties of the block extractor's building blocks -/

theorem head?_drop_eq_get? {α : Type} (l : List α) (n : Nat) :
    (l.drop n).head? = l.get? n := by
  induction l generalizing n with
  | nil => simp
  | cons a l ih =>
    cases n with
    | zero => rfl
    | succ n => exact ih n

theorem get?_map_eq {α β : Type} (f : α → β) (l : List α) (i : Nat) :
    (l.map f).get? i = (l.get? i).map f := by
  induction l generalizing i with
  | nil => simp
  | cons a l ih =>
    cases i with
    | zero => rfl
    | succ i => exact ih i

theorem slice_head_of_pyGet {α : Type} (l : List α) (i : Int) (x : α)
    (h : pyGet? l i = some x) : (pySliceFrom l i).head? = some x := by
  unfold pyGet? at h
  unfold pySliceFrom
  by_cases hi : i < 0
  · rw [if_pos hi] at h ⊢
    by_cases h2 : (0 : Int) ≤ (l.length : Int) + i
    · rw [if_pos h2] at h
      rw [head?_drop_eq_get?]
      exact h
    · rw [if_neg h2] at h
      exact Option.noConfusion h
  · rw [if_neg hi] at h ⊢
    rw [head?_drop_eq_get?]
    exact h

theorem takeThrough_spec (p : List Char → Bool) :
    ∀ (ls bl : List (List Char)), takeThrough p ls = some bl →
      bl ≠ [] ∧ bl.head? = ls.head? ∧
        (∀ z, bl.getLast? = some z → p z = true) ∧
        (∀ l ∈ bl.dropLast, p l = false) ∧ (∀ x ∈ bl, x ∈ ls)
  | [], bl, h => by
    rw [takeThrough] at h
    exact Option.noConfusion h
  | l :: ls, bl, h => by
    rw [takeThrough] at h
    by_cases hp : p l = true
    · rw [if_pos hp] at h
      simp only [Option.some.injEq] at h
      subst h
      refine ⟨by simp, by simp, ?_, by simp, by simp⟩
      intro z hz
      simp only [List.getLast?_singleton, Option.some.injEq] at hz
      rw [← hz]
      exact hp
    · rw [if_neg hp] at h
      cases htt : takeThrough p ls with
      | none => rw [htt] at h; exact Option.noConfusion h
      | some r =>
        rw [htt] at h
        simp only [Option.map_some', Option.some.injEq] at h
        obtain ⟨hr, hhead, hlast, hmid, hmem⟩ := takeThrough_spec p ls r htt
        subst h
        have hpl : p l = false := by simpa using hp
        refine ⟨by simp, by simp, ?_, ?_, ?_⟩
        · intro z hz
          rcases r with _ | ⟨r0, rs⟩
          · exact absurd rfl hr
          · rw [List.getLast?_cons_cons] at hz
            exact hlast z hz
        · intro x hx
          rcases r with _ | ⟨r0, rs⟩
          · exact absurd rfl hr
          · rw [List.dropLast_cons₂] at hx
            rcases List.mem_cons.mp hx with hx | hx
            · rw [hx]; exact hpl
            · exact hmid x hx
        · intro x hx
          rcases List.mem_cons.mp hx with hx | hx
          · rw [hx]; exact List.mem_cons_self _ _
          · exact List.mem_cons_of_mem _ (hmem x hx)

theorem mapExcept_mem {α β ε : Type} (f : α → Except ε β) :
    ∀ (as : List α) (bs : List β), mapExcept f as = .ok bs →
      ∀ b ∈ bs, ∃ a ∈ as, f a = .ok b
  | [], bs, h => by
    rw [mapExcept] at h
    simp only [Except.ok.injEq] at h
    subst h
    intro b hb
    simp at hb
  | a :: as, bs, h => by
    rw [mapExcept] at h
    cases hfa : f a with
    | error e => rw [hfa] at h; exact Except.noConfusion h
    | ok b0 =>
      rw [hfa] at h
      cases hrest : mapExcept f as with
      | error e => rw [hrest] at h; exact Except.noConfusion h
      | ok bs0 =>
        rw [hrest] at h
        simp only [Except.ok.injEq] at h
        subst h
        intro b hb
        rcases List.mem_cons.mp hb with hb | hb
        · refine ⟨a, List.mem_cons_self _ _, ?_⟩
          rw [hb]
          exact hfa
        · obtain ⟨a0, ha0, hfa0⟩ := mapExcept_mem f as bs0 hrest b hb
          exact ⟨a0, List.mem_cons_of_mem _ ha0, hfa0⟩

theorem splitAll_ne_nil : ∀ (cs : List Char), splitAll cs ≠ []
  | [] => by simp [splitAll]
  | c :: cs => by
    rw [splitAll]
    by_cases hc : c = '\n'
    · rw [if_pos hc]; simp
    · rw [if_neg hc]
      cases splitAll cs <;> simp

theorem splitAll_no_nl : ∀ (cs : List Char), ∀ p ∈ splitAll cs, '\n' ∉ p
  | [], p, hp => by
    simp only [splitAll, List.mem_singleton] at hp
    rw [hp]
    simp
  | c :: cs, p, hp => by
    rw [splitAll] at hp
    by_cases hc : c = '\n'
    · rw [if_pos hc] at hp
      rcases List.mem_cons.mp hp with hp | hp
      · rw [hp]; simp
      · exact splitAll_no_nl cs p hp
    · rw [if_neg hc] at hp
      cases hsp : splitAll cs with
      | nil => exact absurd hsp (splitAll_ne_nil cs)
      | cons q qs =>
        rw [hsp] at hp
        rcases List.mem_cons.mp hp with hp | hp
        · rw [hp]
          intro hmem
          rcases List.mem_cons.mp hmem with hmem | hmem
          · exact hc hmem.symm
          · exact splitAll_no_nl cs q (by rw [hsp]; exact List.mem_cons_self _ _) hmem
        · exact splitAll_no_nl cs p (by rw [hsp]; exact List.mem_cons_of_mem _ hp)

theorem splitAll_nl_free : ∀ (p : List Char), '\n' ∉ p → splitAll p = [p]
  | [], _ => rfl
  | c :: p, h => by
    rw [splitAll, if_neg (fun hc => h (by rw [hc]; exact List.mem_cons_self _ _)),
      splitAll_nl_free p (fun hm => h (List.mem_cons_of_mem _ hm))]

theorem splitAll_append_nl :
    ∀ (p t : List Char), '\n' ∉ p → splitAll (p ++ '\n' :: t) = p :: splitAll t
  | [], t, _ => by simp [splitAll]
  | c :: p, t, h => by
    rw [List.cons_append, splitAll,
      if_neg (fun hc => h (by rw [hc]; exact List.mem_cons_self _ _)),
      splitAll_append_nl p t (fun hm => h (List.mem_cons_of_mem _ hm))]

theorem joinNL_single (p : List Char) : joinNL [p] = p := by
  simp [joinNL]

theorem joinNL_cons₂ (p q : List Char) (r : List (List Char)) :
    joinNL (p :: q :: r) = p ++ '\n' :: joinNL (q :: r) := rfl

theorem splitAll_joinNL : ∀ (bl : List (List Char)), bl ≠ [] →
    (∀ p ∈ bl, '\n' ∉ p) → splitAll (joinNL bl) = bl
  | [], h, _ => absurd rfl h
  | [p], _, hnl => by
    rw [joinNL_single, splitAll_nl_free p (hnl p (List.mem_cons_self _ _))]
  | p :: q :: r, _, hnl => by
    rw [joinNL_cons₂, splitAll_append_nl p _ (hnl p (List.mem_cons_self _ _)),
      splitAll_joinNL (q :: r) (by simp) (fun x hx => hnl x (List.mem_cons_of_mem _ hx))]

/-! ### Properties of the finditer skeleton -/

theorem fiGo_ge {β : Type} (m : List Char → Option β) (blen : β → Nat) (text : List Char) :
    ∀ (fuel i : Nat) (x : Nat × β), x ∈ fiGo m blen text fuel i → i ≤ x.1 := by
  intro fuel
  induction fuel with
  | zero => intro i x hx; rw [fiGo] at hx; simp at hx
  | succ fuel ih =>
    intro i x hx
    rw [fiGo] at hx
    by_cases h1 : i < text.length
    · rw [if_pos h1] at hx
      by_cases h2 : isLineStart text i = true
      · rw [if_pos h2] at hx
        cases hm : m (text.drop i) with
        | some b =>
          rw [hm] at hx
          rcases List.mem_cons.mp hx with hx | hx
          · rw [hx]
          · have := ih _ x hx
            omega
        | none =>
          rw [hm] at hx
          have := ih _ x hx
          omega
      · rw [if_neg h2] at hx
        have := ih _ x hx
        omega
    · rw [if_neg h1] at hx
      simp at hx

theorem fiGo_pairwise {β : Type} (m : List Char → Option β) (blen : β → Nat) (text : List Char) :
    ∀ (fuel i : Nat), List.Pairwise (fun a b => a.1 < b.1) (fiGo m blen text fuel i) := by
  intro fuel
  induction fuel with
  | zero => intro i; rw [fiGo]; exact List.Pairwise.nil
  | succ fuel ih =>
    intro i
    rw [fiGo]
    by_cases h1 : i < text.length
    · rw [if_pos h1]
      by_cases h2 : isLineStart text i = true
      · rw [if_pos h2]
        cases hm : m (text.drop i) with
        | some b =>
          refine List.Pairwise.cons ?_ (ih _)
          intro y hy
          have hge := fiGo_ge m blen text fuel _ y hy
          have hmax : 1 ≤ max (blen b) 1 := le_max_right _ _
          show i < y.1
          omega
        | none => exact ih _
      · rw [if_neg h2]; exact ih _
    · rw [if_neg h1]; exact List.Pairwise.nil

theorem nlBefore_mono (text : List Char) (o o2 : Nat) (h : o ≤ o2) :
    nlBefore text o ≤ nlBefore text o2 :=
  List.Sublist.count_le (List.take_sublist_take_left text h) '\n'

/-! ### Python negative-index shifting (for anchor 0 and negative anchors) -/

theorem pySliceFrom_shift {α : Type} (l : List α) (i : Int) (hi : i < 0)
    (h2 : 0 ≤ (l.length : Int) + i) :
    pySliceFrom l i = pySliceFrom l ((l.length : Int) + i) := by
  unfold pySliceFrom
  rw [if_pos hi, if_neg (by omega)]

theorem pyGet?_shift {α : Type} (l : List α) (i : Int) (hi : i < 0)
    (h2 : 0 ≤ (l.length : Int) + i) :
    pyGet? l i = pyGet? l ((l.length : Int) + i) := by
  unfold pyGet?
  rw [if_pos hi, if_pos h2, if_neg (by omega)]


/-! ### Claim theorems -/

/-- C1: the claim states that for a heredoc-valued property such as
`<<-EOT / line one / line two / EOT` the scanner returns the literal source
text of the value, opener and terminator included, verbatim.  The code does
not: `ret += c` at the top of the loop already appended the first `<` before
the heredoc-open branch appends a whole normalized opener again, the newline
after the opener is skipped without being appended, and the terminator is cut
after its first character, so the scan returns `<<<-EOTline one\nline two\nE`
instead of the verbatim value text. -/
theorem claim_C1_heredoc_mangled :
    find_prop_in_block ("default = <<-EOT\nline one\nline two\nEOT\n".toList)
        ("default".toList)
      = .ok ("<<<-EOTline one\nline two\nE".toList) ∧
    ("<<<-EOTline one\nline two\nE".toList : List Char) ≠
      ("<<-EOT\nline one\nline two\nEOT".toList) := by
  constructor
  · simp +decide [find_prop_in_block, propMatches, fiGo, isLineStart, mProp, selectByKey,
      ssort, insLt, scanGo, scanStep, hdTermOk, heredocMatch, escUpd, isOpener, isCloser,
      BRACKETS, scanFinish, initScanSt, stripPropAssign, pyStrip, isPyWs, isWordChar,
      pyGet?, String.toList]
  · decide

/-- C2: the claim states that brackets on their own lines inside a heredoc
body do not touch the bracket stack and the scan succeeds.  In the code the
closing-bracket branches are not guarded by `in_heredoc` (only the opening
branch is), so the `\x7d` line inside the heredoc body reaches
`bracket_stack[-1]` on an empty stack and the scan raises `IndexError`
instead of succeeding. -/
theorem claim_C2_heredoc_bracket :
    find_prop_in_block ("default = <<-EOT\n\x7b\n\x7d\nEOT\n".toList) ("default".toList)
      = .error .indexErr := by
  simp +decide [find_prop_in_block, propMatches, fiGo, isLineStart, mProp, selectByKey,
    ssort, insLt, scanGo, scanStep, hdTermOk, heredocMatch, escUpd, isOpener, isCloser,
    BRACKETS, scanFinish, initScanSt, stripPropAssign, pyStrip, isPyWs, isWordChar,
    pyGet?, String.toList]

/-- C3 (counterexample): a heredoc body containing a line consisting of a
closing brace makes the extractor (which is not bracket- or heredoc-aware)
terminate the block inside the heredoc, returning a block whose brackets are
unbalanced outside quoted/heredoc regions, contradicting the claimed
invariant. -/
theorem claim_C3_counterexample :
    find_blocks ("variable \"x\" \x7b\n  default = <<-EOT\n\x7d\nEOT\n\x7d".toList) [1]
        (fun l => l == "variable \"x\" \x7b".toList) (fun l => l == "\x7d".toList)
      = .ok [("variable \"x\" \x7b\n  default = <<-EOT\n\x7d".toList)] ∧
    specBalancedOutside ("variable \"x\" \x7b\n  default = <<-EOT\n\x7d".toList) = false := by
  constructor
  · simp +decide [find_blocks, mapExcept, findBlocksOne, splitlines, splitAll,
      pySliceFrom, pyGet?, takeThrough, joinNL, String.toList]
  · simp +decide [specBalancedOutside, balGo, heredocMatch, escUpd, isOpener, isCloser,
      BRACKETS, isWordChar, String.toList]

/-- C3 (amended): every block returned by a successful `find_blocks` call
starts with a line matching the start pattern and ends with the first
subsequent line matching the end pattern, inclusive (no line before the last
matches the end pattern); the bracket-balance half of the original claim does
not hold of the code, see the counterexample. -/
theorem claim_C3_amended (text : List Char) (locs : List Int)
    (startP endP : List Char → Bool) (blocks : List (List Char)) (b : List Char)
    (hfb : find_blocks text locs startP endP = .ok blocks) (hb : b ∈ blocks) :
    splitAll b ≠ [] ∧ startP ((splitAll b).headD []) = true ∧
      endP ((splitAll b).getLastD []) = true ∧
      ∀ l ∈ (splitAll b).dropLast, endP l = false := by
  unfold find_blocks at hfb
  cases hm : mapExcept (findBlocksOne (splitlines text) startP endP) locs with
  | error e => rw [hm] at hfb; exact Except.noConfusion hfb
  | ok blocks0 =>
    rw [hm] at hfb
    by_cases he : blocks0.isEmpty = true
    · simp only [he, if_true] at hfb
      exact Except.noConfusion hfb
    · simp only [he] at hfb
      simp at hfb
      subst hfb
      obtain ⟨loc, _hloc, hone⟩ := mapExcept_mem _ locs blocks0 hm b hb
      unfold findBlocksOne at hone
      split at hone
      · exact Except.noConfusion hone
      · split at hone
        · exact Except.noConfusion hone
        · rename_i ln hget
          split at hone
          · split at hone
            · exact Except.noConfusion hone
            · rename_i hs htt0 bl htt
              simp only [Except.ok.injEq] at hone
              obtain ⟨hbl, hhead, hlast, hmid, hmem⟩ := takeThrough_spec endP _ bl htt
              have hnl : ∀ p ∈ bl, '\n' ∉ p := by
                intro p hp
                have hp2 : p ∈ pySliceFrom (splitlines text) (loc - 1) := hmem p hp
                have hp3 : p ∈ splitlines text := by
                  unfold pySliceFrom at hp2
                  split at hp2 <;> exact List.mem_of_mem_drop hp2
                have hp4 : p ∈ splitAll text := by
                  unfold splitlines at hp3
                  split at hp3
                  · simp at hp3
                  · split at hp3
                    · exact List.mem_of_mem_dropLast hp3
                    · exact hp3
                exact splitAll_no_nl text p hp4
              have hsplit : splitAll b = bl := by
                rw [← hone]
                exact splitAll_joinNL bl hbl hnl
              rw [hsplit]
              have hsh : (pySliceFrom (splitlines text) (loc - 1)).head? = some ln :=
                slice_head_of_pyGet _ _ _ hget
              have hh2 : bl.head? = some ln := by rw [hhead, hsh]
              refine ⟨hbl, ?_, ?_, hmid⟩
              · rw [List.headD_eq_head?_getD, hh2]
                exact hs
              · rcases Option.isSome_iff_exists.mp (List.getLast?_isSome.mpr hbl) with ⟨z, hz⟩
                rw [List.getLastD_eq_getLast?, hz]
                exact hlast z hz
          · exact Except.noConfusion hone

/-- C3 (witness for the amended statement): instantiated on a concrete
two-line block. -/
theorem claim_C3_amended_witness :
    ((fun l => l == "a \x7b".toList) ((splitAll ("a \x7b\n\x7d".toList)).headD []) = true) ∧
    ((fun l => l == "\x7d".toList) ((splitAll ("a \x7b\n\x7d".toList)).getLastD []) = true) := by
  have h := claim_C3_amended ("a \x7b\n\x7d".toList) [1] (fun l => l == "a \x7b".toList)
      (fun l => l == "\x7d".toList) [("a \x7b\n\x7d".toList)] ("a \x7b\n\x7d".toList)
      (by simp +decide [find_blocks, mapExcept, findBlocksOne, splitlines, splitAll,
            pySliceFrom, pyGet?, takeThrough, joinNL, String.toList])
      (by simp)
  exact ⟨h.2.1, h.2.2.1⟩

/-- C4: the claim states that a closing bracket met outside a quoted string
with an empty bracket stack makes the scan fail with the UnmatchedBracket
error, the same failure mode as a mismatched closer.  In the code that branch
condition evaluates `bracket_stack[-1]` on the empty stack, so the scan
raises `IndexError` instead of the `ValueError('Unmatched brackets ...')`
raised for a mismatched closer.  First conjunct: any scan step on a closing
bracket outside quotes and heredocs with an empty stack returns the
IndexError; second conjunct: the whole scan of `x = \x7d` raises it. -/
theorem claim_C4_empty_stack_closer :
    (∀ (text : List Char) (idx : Nat) (st : ScanSt) (c : Char),
        text.get? idx = some c → isCloser c = true →
        st.inQuoted = false → st.inHeredoc = false → st.stack = [] →
        scanStep text idx st = .fail .indexErr) ∧
    find_prop_in_block ("x = \x7d\n".toList) ("x".toList) = .error .indexErr := by
  constructor
  · intro text idx st c hget hc hq hh hs
    have hcs : c = '\x7d' ∨ c = ']' ∨ c = ')' := by
      unfold isCloser at hc
      simp only [Bool.or_eq_true, beq_iff_eq] at hc
      tauto
    unfold scanStep
    rw [hget]
    rcases hcs with rfl | rfl | rfl <;>
      simp [hdTermOk, hq, hh, hs, isOpener, isCloser, BRACKETS, escUpd]
  · simp +decide [find_prop_in_block, propMatches, fiGo, isLineStart, mProp, selectByKey,
      ssort, insLt, scanGo, scanStep, hdTermOk, heredocMatch, escUpd, isOpener, isCloser,
      BRACKETS, scanFinish, initScanSt, stripPropAssign, pyStrip, isPyWs, isWordChar,
      pyGet?, String.toList]

/-- C4 (witness): the step-level statement instantiated at a concrete input. -/
theorem claim_C4_witness :
    scanStep ("\x7d".toList) 0 initScanSt = .fail .indexErr :=
  claim_C4_empty_stack_closer.1 ("\x7d".toList) 0 initScanSt '\x7d'
    (by decide) (by decide) rfl rfl rfl

/-- C5: among several line-start occurrences of `prop =` in a block, the
scanner selects an occurrence with the smallest leading-whitespace count
(first conjunct, for every input), and on the spec's outer/nested `default`
example it returns the outer object's full text, not the nested `"x"`
(second conjunct). -/
theorem claim_C5_outer_selection :
    (∀ (text prop : List Char) (sel : Nat × Nat × Nat),
        selectByKey (fun x => x.2.1) (propMatches text prop) = some sel →
        sel ∈ propMatches text prop ∧ ∀ x ∈ propMatches text prop, sel.2.1 ≤ x.2.1) ∧
    find_prop_in_block
        ("variable \"v\" \x7b\n  default = \x7b\n    default = \"x\"\n  \x7d\n\x7d".toList)
        ("default".toList)
      = .ok ("\x7b\n    default = \"x\"\n  \x7d".toList) := by
  constructor
  · intro text prop sel h
    exact selectByKey_min _ _ _ h
  · simp +decide [find_prop_in_block, propMatches, fiGo, isLineStart, mProp, selectByKey,
      ssort, insLt, scanGo, scanStep, hdTermOk, heredocMatch, escUpd, isOpener, isCloser,
      BRACKETS, scanFinish, initScanSt, stripPropAssign, pyStrip, isPyWs, isWordChar,
      pyGet?, String.toList]

/-- C5 (witness): the selection statement instantiated on a block with an
indentation-0 and an indentation-2 occurrence. -/
theorem claim_C5_witness :
    ((0, 0, 3) : Nat × Nat × Nat) ∈ propMatches ("b = 1\n  b = 2\n".toList) ("b".toList) ∧
    ((0, 0, 3) : Nat × Nat × Nat).2.1 ≤ ((6, 2, 5) : Nat × Nat × Nat).2.1 := by
  have h := claim_C5_outer_selection.1 ("b = 1\n  b = 2\n".toList) ("b".toList) (0, 0, 3)
    (by decide)
  exact ⟨h.1, h.2 (6, 2, 5) (by decide)⟩

/-- C6: if the bracket stack is non-empty when the scan exhausts the input,
`find_prop_in_block` fails with the UnmatchedBracket error (first conjunct,
for every state and fuel), and on the spec's `value = [1, 2` example the
whole call fails with that error rather than returning a truncated value
(second conjunct). -/
theorem claim_C6_unmatched_at_eoi :
    (∀ (text : List Char) (fuel idx : Nat) (st : ScanSt),
        text.length ≤ idx → st.stack ≠ [] →
        scanGo text fuel idx st = .error .unmatchedBracket) ∧
    find_prop_in_block ("value = [1, 2".toList) ("value".toList)
      = .error .unmatchedBracket := by
  constructor
  · intro text fuel idx st hlen hst
    unfold scanGo
    rw [if_neg (by omega)]
    unfold scanFinish
    rw [if_neg hst]
  · simp +decide [find_prop_in_block, propMatches, fiGo, isLineStart, mProp, selectByKey,
      ssort, insLt, scanGo, scanStep, hdTermOk, heredocMatch, escUpd, isOpener, isCloser,
      BRACKETS, scanFinish, initScanSt, stripPropAssign, pyStrip, isPyWs, isWordChar,
      pyGet?, String.toList]

/-- C6 (witness): the end-of-input statement instantiated at a concrete
state with one open bracket. -/
theorem claim_C6_witness :
    scanGo ("ab".toList) 0 5 { initScanSt with stack := ['['] }
      = .error .unmatchedBracket :=
  claim_C6_unmatched_at_eoi.1 ("ab".toList) 0 5 { initScanSt with stack := ['['] }
    (by decide) (by decide)

/-- C7: on the spec's escaped-quote example `key = "a\"b"` the scanner
returns exactly `"a\"b"` (first conjunct), and the escape flag after any
continuing scan step is `c == '\\' && !is_escaped` for the character `c`
read at the top of the iteration, so escapes do not chain past a pair of
backslashes (second conjunct). -/
theorem claim_C7_escaped_quote :
    find_prop_in_block ("key = \"a\\\"b\"\n".toList) ("key".toList)
      = .ok ("\"a\\\"b\"".toList) ∧
    ∀ (text : List Char) (idx : Nat) (st st2 : ScanSt) (i2 : Nat) (c : Char),
      text.get? idx = some c → scanStep text idx st = .cont i2 st2 →
      st2.isEscaped = escUpd c st.isEscaped := by
  constructor
  · simp +decide [find_prop_in_block, propMatches, fiGo, isLineStart, mProp, selectByKey,
      ssort, insLt, scanGo, scanStep, hdTermOk, heredocMatch, escUpd, isOpener, isCloser,
      BRACKETS, scanFinish, initScanSt, stripPropAssign, pyStrip, isPyWs, isWordChar,
      pyGet?, String.toList]
  · intro text idx st st2 i2 c hget hstep
    unfold scanStep at hstep
    split at hstep
    · rename_i heq
      rw [hget] at heq
      exact Option.noConfusion heq
    · rename_i c' heq
      rw [hget] at heq
      simp only [Option.some.injEq] at heq
      subst heq
      repeat' split at hstep
      all_goals
        first
        | exact StepRes.noConfusion hstep
        | (injection hstep with h1 h2; subst h2; rfl)

/-- C7 (witness): the escape-update statement instantiated at a concrete
scan step. -/
theorem claim_C7_witness :
    ({ initScanSt with ret := ['a'] } : ScanSt).isEscaped
      = escUpd 'a' initScanSt.isEscaped :=
  claim_C7_escaped_quote.2 ("a".toList) 0 initScanSt { initScanSt with ret := ['a'] } 1 'a'
    (by decide) (by decide)

/-- C8: for a non-empty candidate list built by `HclLocal.find`, the
disambiguator returns the candidate with the minimum inner-match indentation
and, among equal-indentation candidates, the first in document order: the
returned candidate is an element of the list, its indentation is a lower
bound, it sits at index `fmIdx`, and every earlier candidate has a strictly
larger indentation. -/
theorem claim_C8_disambiguation (name : List Char) (bms : List (Nat × List Char))
    (sel : Nat × List Char × Nat)
    (h : fm (fun x => x.2.2) (buildLocMatches name bms) = some sel) :
    hclLocalFind name bms = .ok [(sel.1, sel.2.1)] ∧
    sel ∈ buildLocMatches name bms ∧
    (∀ y ∈ buildLocMatches name bms, sel.2.2 ≤ y.2.2) ∧
    (buildLocMatches name bms).get?
        (fmIdx (fun x => x.2.2) (buildLocMatches name bms)) = some sel ∧
    ∀ j, j < fmIdx (fun x => x.2.2) (buildLocMatches name bms) →
      ∀ y, (buildLocMatches name bms).get? j = some y → sel.2.2 < y.2.2 := by
  refine ⟨?_, fm_mem _ _ _ h, fm_min _ _ _ h, fm_idx_get _ _ _ h, fm_idx_first _ _ _ h⟩
  unfold hclLocalFind
  rw [ssort_head?_eq_fm, h]

/-- C8 (witness): two merged `locals` candidates, inner indentations 2 and 0;
the indentation-0 candidate is selected. -/
theorem claim_C8_witness :
    hclLocalFind ("foo".toList) [(1, "  foo = 1".toList), (10, "foo = 2".toList)]
      = .ok [(10, "foo = 2".toList)] ∧
    ((10 : Nat), "foo = 2".toList, (0 : Nat)) ∈
      buildLocMatches ("foo".toList) [(1, "  foo = 1".toList), (10, "foo = 2".toList)] := by
  have h := claim_C8_disambiguation ("foo".toList)
      [(1, "  foo = 1".toList), (10, "foo = 2".toList)] (10, "foo = 2".toList, 0) (by decide)
  exact ⟨h.1, h.2.1⟩

/-- C9: the anchor locator returns line numbers in top-to-bottom textual
order (the anchors are pairwise monotone), and the line number reported for
the i-th match equals one plus the number of newline characters before the
match's character offset. -/
theorem claim_C9_anchor_lines (m : List Char → Option Nat) (text : List Char) :
    List.Pairwise (· ≤ ·) (locateAll m text) ∧
    ∀ (i off len : Nat), (fiGo m id text (text.length + 1) 0).get? i = some (off, len) →
      (locateAll m text).get? i = some (nlBefore text off + 1) := by
  constructor
  · unfold locateAll
    refine List.Pairwise.map _ ?_ (fiGo_pairwise m id text _ 0)
    intro a b hab
    exact Nat.succ_le_succ (nlBefore_mono text _ _ (Nat.le_of_lt hab))
  · intro i off len h
    unfold locateAll
    rw [get?_map_eq, h]
    rfl

/-- C9 (witness): a start pattern matching on line 7 (six preceding
newlines) is reported as line 7. -/
theorem claim_C9_witness :
    (locateAll (fun s => if ("variable".toList).isPrefixOf s then some 8 else none)
        ("a\nb\nc\nd\ne\nf\nvariable x\n".toList)).get? 0 = some 7 :=
  (claim_C9_anchor_lines
      (fun s => if ("variable".toList).isPrefixOf s then some 8 else none)
      ("a\nb\nc\nd\ne\nf\nvariable x\n".toList)).2 0 12 8 (by decide)

/-- C10: `find_blocks` does not validate that an anchor is at least 1; for
`loc ≤ 0` with `lines.length + loc ≥ 1`, Python's negative indexing makes
the call behave exactly like the call with the 1-based anchor
`lines.length + loc` counted from the end of the file (for `loc = 0`, the
last line), instead of being rejected. -/
theorem claim_C10_negative_anchor (text : List Char) (startP endP : List Char → Bool)
    (loc : Int) (h1 : loc ≤ 0) (h2 : 1 ≤ ((splitlines text).length : Int) + loc) :
    find_blocks text [loc] startP endP
      = find_blocks text [((splitlines text).length : Int) + loc] startP endP := by
  have e1 : pySliceFrom (splitlines text) (loc - 1)
      = pySliceFrom (splitlines text) ((((splitlines text).length : Int) + loc) - 1) := by
    rw [pySliceFrom_shift _ _ (by omega) (by omega)]
    congr 1
    omega
  have e2 : pyGet? (splitlines text) (loc - 1)
      = pyGet? (splitlines text) ((((splitlines text).length : Int) + loc) - 1) := by
    rw [pyGet?_shift _ _ (by omega) (by omega)]
    congr 1
    omega
  unfold find_blocks mapExcept findBlocksOne
  rw [e1, e2]

/-- C10 (witness): anchor 0 on a two-line file behaves exactly like anchor 2
(the last line). -/
theorem claim_C10_witness :
    find_blocks ("a\n\x7d".toList) [0] (fun l => l == "\x7d".toList) (fun l => l == "\x7d".toList)
      = find_blocks ("a\n\x7d".toList) [2] (fun l => l == "\x7d".toList)
          (fun l => l == "\x7d".toList) := by
  have h := claim_C10_negative_anchor ("a\n\x7d".toList) (fun l => l == "\x7d".toList)
      (fun l => l == "\x7d".toList) 0 (by omega) (by decide)
  exact h
